import Mathlib

/-!
Verification of the `researchtopodcast` script engine against its
natural-language specification.

The Python modules `script_engine/persona.py`, `script_engine/planner.py`
and `script_engine/formatter.py` are shallowly embedded below:

* dataclasses become structures, and each `__post_init__` validator becomes
  a smart constructor returning `Except String _` (a raised `ValueError`
  is an `.error`);
* Python string operations are modelled by executable functions on
  `List Char` (`pyStrip` is `str.strip()`, `pySplitOn` is `str.split(sep)`,
  `pyWordCount` is `len(str.split())`, `pyJoin` is `sep.join`,
  `pyStartsWith` is `str.startswith`, `pyDrop` is the slice `s[n:]`);
  whitespace is the ASCII whitespace recognised by `Char.isWhitespace`;
* Python float arithmetic on word counts and durations is modelled with
  exact rationals (`ℚ`), the exact values the spec prescribes
  (`words / 150 * 60`, `target * 0.05`);
* the iteration over the `host_names` set in the multi-speaker parser is
  modelled as iteration over the hosts in list order.
-/

namespace ResearchToPodcast

/-! ## Python string primitives (executable models on `List Char`) -/

/-- ASCII whitespace, as recognised by `str.strip()` / `str.split()`. -/
def isSpace (c : Char) : Bool := c.isWhitespace

/-- Strip leading and trailing whitespace from a character list. -/
def stripChars (cs : List Char) : List Char :=
  ((cs.dropWhile isSpace).reverse.dropWhile isSpace).reverse

/-- Python `str.strip()`. -/
def pyStrip (s : String) : String := ⟨stripChars s.data⟩

/-- Truthiness of a Python string: `if s:` is true iff `s` is non-empty. -/
def pyTruthy (s : String) : Bool := s ≠ ""

/-- Count of maximal whitespace-free runs; the flag records whether the
scan is currently inside a run. -/
def countWordsAux : Bool → List Char → Nat
  | _, [] => 0
  | inWord, c :: rest =>
    if isSpace c then countWordsAux false rest
    else (if inWord then 0 else 1) + countWordsAux true rest

/-- Python `len(s.split())`: the number of whitespace-separated words. -/
def pyWordCount (s : String) : Nat := countWordsAux false s.data

/-- The scanning loop of `str.split(sep)` for a non-empty separator, with
fuel (each step consumes at least one character, so `length + 1` fuel is
enough); `acc` holds the current piece reversed. -/
def splitSepGo (sep : List Char) : Nat → List Char → List Char → List (List Char)
  | 0, cs, acc => [acc.reverse ++ cs]
  | _ + 1, [], acc => [acc.reverse]
  | fuel + 1, c :: rest, acc =>
    if sep.isPrefixOf (c :: rest) then
      acc.reverse :: splitSepGo sep fuel ((c :: rest).drop sep.length) []
    else splitSepGo sep fuel rest (c :: acc)

/-- Python `s.split(sep)` for a non-empty separator string. -/
def pySplitOn (s : String) (sep : String) : List String :=
  (splitSepGo sep.data (s.data.length + 1) s.data []).map String.mk

/-- Python `sep.join(xs)`. -/
def pyJoin (sep : String) : List String → String
  | [] => ""
  | [x] => x
  | x :: y :: xs => x ++ sep ++ pyJoin sep (y :: xs)

/-- Python `s.startswith(pre)`. -/
def pyStartsWith (s pre : String) : Bool := pre.data.isPrefixOf s.data

/-- Python slice `s[n:]` (by characters). -/
def pyDrop (s : String) (n : Nat) : String := ⟨s.data.drop n⟩

/-! ## `persona.py`: data model and validation -/

/-- Enum `PodcastMode` from `persona.py`: the supported generation modes. -/
inductive PodcastMode where
  | solo
  | singleLLM
  | multiAgent
deriving DecidableEq, Repr

/-- Accessor `PodcastMode.value`: the string value of each enum member. -/
def PodcastMode.value : PodcastMode → String
  | .solo => "solo"
  | .singleLLM => "single-llm"
  | .multiAgent => "multi-agent"

/-- The `PodcastMode(value)` enum constructor: look a mode up by its string
value, failing (Python raises `ValueError`) on an unknown value. -/
def PodcastMode.ofValue (s : String) : Except String PodcastMode :=
  if s = "solo" then .ok .solo
  else if s = "single-llm" then .ok .singleLLM
  else if s = "multi-agent" then .ok .multiAgent
  else .error ("invalid PodcastMode value: " ++ s)

/-- Dataclass `Host` from `persona.py`: a podcast host (the spec calls this a
Speaker) with persona and voice configuration. -/
structure Host where
  name : String
  persona : String
  voice_id : String
deriving DecidableEq, Repr

/-- Validator `Host.__post_init__`: constructing a `Host` validates that the name and
the voice id are not empty or whitespace-only. -/
def mkHost (name persona voice_id : String) : Except String Host :=
  if pyStrip name = "" then .error "Host name cannot be empty"
  else if pyStrip voice_id = "" then .error "Voice ID cannot be empty"
  else .ok ⟨name, persona, voice_id⟩

/-- Dataclass `Segment` from `persona.py`: a single segment of podcast dialogue. -/
structure Segment where
  speaker : String
  text : String
deriving DecidableEq, Repr

/-- Validator `Segment.__post_init__`: constructing a `Segment` validates that the
speaker and the text are not empty or whitespace-only. -/
def mkSegment (speaker text : String) : Except String Segment :=
  if pyStrip speaker = "" then .error "Speaker cannot be empty"
  else if pyStrip text = "" then .error "Segment text cannot be empty"
  else .ok ⟨speaker, text⟩

/-- Property `Segment.word_count`: `len(self.text.split())`. -/
def Segment.word_count (s : Segment) : Nat := pyWordCount s.text

/-- Property `Segment.estimated_duration_seconds`: `(word_count / 150) * 60`,
modelled exactly in `ℚ`. -/
def Segment.estimated_duration_seconds (s : Segment) : ℚ :=
  ((s.word_count : ℚ) / 150) * 60

/-- A timestamp as carried by `ScriptMetadata.created`, modelling Python's
naive `datetime` (no timezone). -/
structure DateTime where
  year : Nat
  month : Nat
  day : Nat
  hour : Nat
  minute : Nat
  second : Nat
  microsecond : Nat
deriving DecidableEq, Repr

/-- The range constraints a Python `datetime` object always satisfies
(the day bound is the loose bound `≤ 31`; Python additionally checks the
month length, giving a subset of these values). -/
def DateTime.wf (d : DateTime) : Bool :=
  1 ≤ d.year && d.year ≤ 9999 && 1 ≤ d.month && d.month ≤ 12 &&
  1 ≤ d.day && d.day ≤ 31 && d.hour ≤ 23 && d.minute ≤ 59 &&
  d.second ≤ 59 && d.microsecond ≤ 999999

/-- Dataclass `ScriptMetadata` from `persona.py`. -/
structure ScriptMetadata where
  title : String
  duration_sec : Int
  created : DateTime
  mode : PodcastMode
  source_document : Option String
deriving DecidableEq, Repr

/-- Validator `ScriptMetadata.__post_init__`: the title must not be empty or
whitespace-only and the duration must be positive. -/
def mkScriptMetadata (title : String) (duration_sec : Int) (created : DateTime)
    (mode : PodcastMode) (source_document : Option String) :
    Except String ScriptMetadata :=
  if pyStrip title = "" then .error "Title cannot be empty"
  else if duration_sec ≤ 0 then .error "Duration must be positive"
  else .ok ⟨title, duration_sec, created, mode, source_document⟩

/-- Dataclass `Script` from `persona.py`: complete podcast script with metadata,
hosts, and segments. -/
structure Script where
  meta : ScriptMetadata
  hosts : List Host
  segments : List Segment
deriving DecidableEq, Repr

/-- The `for segment in self.segments` loop of `Script.__post_init__`: the
first segment (in order) whose speaker is not among the host names, if
any. -/
def findDanglingSpeaker (host_names : List String) : List Segment → Option Segment
  | [] => none
  | seg :: rest =>
    if host_names.contains seg.speaker then findDanglingSpeaker host_names rest
    else some seg

/-- Validator `Script.__post_init__`: hosts non-empty, segments non-empty, and every
segment speaker must occur among the host names (checked in segment order,
failing on the first dangling speaker). No other check is performed. -/
def mkScript (meta : ScriptMetadata) (hosts : List Host)
    (segments : List Segment) : Except String Script :=
  if hosts = [] then .error "Script must have at least one host"
  else if segments = [] then .error "Script must have at least one segment"
  else
    match findDanglingSpeaker (hosts.map Host.name) segments with
    | some seg => .error ("Speaker \x27" ++ seg.speaker ++ "\x27 not found in hosts")
    | none => .ok ⟨meta, hosts, segments⟩

/-- Property `Script.estimated_duration_seconds`: sum of the segment estimates. -/
def totalDuration (segments : List Segment) : ℚ :=
  (segments.map Segment.estimated_duration_seconds).sum

/-- Validity of a raw `Host` value: exactly what `Host.__post_init__`
accepts. -/
def Host.valid (h : Host) : Bool :=
  pyStrip h.name ≠ "" && pyStrip h.voice_id ≠ ""

/-- Validity of a raw `Segment` value: exactly what
`Segment.__post_init__` accepts. -/
def Segment.valid (s : Segment) : Bool :=
  pyStrip s.speaker ≠ "" && pyStrip s.text ≠ ""

/-- A `Script` value in the states reachable through the validating
constructors: all component and structural invariants hold. -/
def Script.validB (s : Script) : Bool :=
  pyStrip s.meta.title ≠ "" && 0 < s.meta.duration_sec && s.meta.created.wf &&
  !s.hosts.isEmpty && s.hosts.all Host.valid &&
  !s.segments.isEmpty && s.segments.all Segment.valid &&
  s.segments.all (fun seg => (s.hosts.map Host.name).contains seg.speaker)

/-! ## `planner.py`: word targets, response parsing, timing adjustment -/

/-- Computation `int(target_duration * 150 / 60)` from `_generate_solo_script` and
`_generate_single_llm_script`: Python's `int()` truncates the (here
non-negative) quotient toward zero, which is natural-number division. -/
def targetWords (target_duration : Nat) : Nat :=
  target_duration * 150 / 60

/-- Python's built-in `round` on an exact value: round half to even
(banker's rounding). Used only to state the spec's
`round(target_duration_seconds * 150 / 60)`. -/
def pyRound (q : ℚ) : ℤ :=
  if q - ⌊q⌋ < 1/2 then ⌊q⌋
  else if 1/2 < q - ⌊q⌋ then ⌊q⌋ + 1
  else if ⌊q⌋ % 2 = 0 then ⌊q⌋ else ⌊q⌋ + 1

/-- Method `_parse_solo_response`: split the raw response on `"\n\n"`, strip each
paragraph, keep the non-empty ones, and turn each into a segment spoken by
the given speaker (the loop re-checks non-emptiness, mirrored here by a
second filter). -/
def parseSoloResponse (response : String) (speaker_name : String) : List Segment :=
  let paragraphs := ((pySplitOn response "\n\n").map pyStrip).filter pyTruthy
  (paragraphs.filter pyTruthy).map (fun p => { speaker := speaker_name, text := p })

/-- The speaker-label match of `_parse_multi_speaker_response`: the first
name in the roster with `line.startswith(name + ":")`, paired with the
stripped remainder `line[len(name)+1:].strip()`. (The Python code iterates
over the set `host_names`; we model it in roster list order.) -/
def findSpeaker : List String → String → Option (String × String)
  | [], _ => none
  | name :: rest, line =>
    if pyStartsWith line (name ++ ":") then
      some (name, pyStrip (pyDrop line (name.length + 1)))
    else findSpeaker rest line

/-- The "save previous segment if exists" step of
`_parse_multi_speaker_response`: append the open segment to the output
when `current_speaker` is truthy and `current_text` is non-empty. -/
def flushSegment (segments : List Segment) (current_speaker : Option String)
    (current_text : List String) : List Segment :=
  match current_speaker with
  | some sp =>
    if pyTruthy sp && !current_text.isEmpty then
      segments ++ [{ speaker := sp, text := pyJoin " " current_text }]
    else segments
  | none => segments

/-- The loop of `_parse_multi_speaker_response`, with the accumulated
`segments`, the `current_speaker` (`none` is Python's `None`) and the
`current_text` list made explicit; each line is stripped, blank lines are
skipped, and at end of input the trailing open segment is flushed. -/
def parseMultiAux (names : List String) (segments : List Segment)
    (current_speaker : Option String) (current_text : List String) :
    List String → List Segment
  | [] => flushSegment segments current_speaker current_text
  | l :: rest =>
    if pyStrip l = "" then parseMultiAux names segments current_speaker current_text rest
    else
      match findSpeaker names (pyStrip l) with
      | some (sp, text) =>
        parseMultiAux names (flushSegment segments current_speaker current_text)
          (some sp) (if text ≠ "" then [text] else []) rest
      | none =>
        match current_speaker with
        | some cs =>
          if pyTruthy cs then
            parseMultiAux names segments current_speaker (current_text ++ [pyStrip l]) rest
          else parseMultiAux names segments current_speaker current_text rest
        | none => parseMultiAux names segments current_speaker current_text rest

/-- Method `_parse_multi_speaker_response`: split the response into lines and run
the parsing loop with empty initial state. -/
def parseMultiSpeakerResponse (response : String) (hosts : List Host) : List Segment :=
  parseMultiAux (hosts.map Host.name) [] none [] (pySplitOn response "\n")

/-- Variant of `parseMultiAux` specialised to pre-stripped, non-blank lines: the same
loop without the per-line strip and blank skip. Used to relate the
implementation to the claim-level description. -/
def parseCleanAux (names : List String) (segments : List Segment)
    (current_speaker : Option String) (current_text : List String) :
    List String → List Segment
  | [] => flushSegment segments current_speaker current_text
  | l :: rest =>
    match findSpeaker names l with
    | some (sp, text) =>
      parseCleanAux names (flushSegment segments current_speaker current_text)
        (some sp) (if text ≠ "" then [text] else []) rest
    | none =>
      match current_speaker with
      | some cs =>
        if pyTruthy cs then
          parseCleanAux names segments current_speaker (current_text ++ [l]) rest
        else parseCleanAux names segments current_speaker current_text rest
      | none => parseCleanAux names segments current_speaker current_text rest

/-- Claim-level description of one multi-speaker chunk: starting from an
open segment for `sp` holding `pieces`, every following line that does not
open a new recognized speaker (unknown label, stray unlabeled line, or any
other content) is appended to the open segment's pieces; a line opening a
recognized speaker emits the open segment (space-joined) and starts the
next chunk; the trailing open segment is emitted at end of input. -/
def specChunksGo (names : List String) : String → List String → List String → List Segment
  | sp, pieces, [] =>
    if pyTruthy sp && !pieces.isEmpty then [{ speaker := sp, text := pyJoin " " pieces }]
    else []
  | sp, pieces, l :: rest =>
    match findSpeaker names l with
    | some (sp', t) =>
      (if pyTruthy sp && !pieces.isEmpty then [{ speaker := sp, text := pyJoin " " pieces }]
       else []) ++ specChunksGo names sp' (if t ≠ "" then [t] else []) rest
    | none => specChunksGo names sp (pieces ++ [l]) rest

/-- Claim-level description of multi-speaker parsing, written from the
spec's words: work on the stripped non-blank lines; DISCARD every line
before the first recognized speaker label; from that label on, chunk the
lines as described by `specChunksGo`. -/
def multiSpeakerSpec (names : List String) (response : String) : List Segment :=
  match (((pySplitOn response "\n").map pyStrip).filter pyTruthy).dropWhile
      (fun l => (findSpeaker names l).isNone) with
  | [] => []
  | l :: rest =>
    match findSpeaker names l with
    | some (sp, t) => specChunksGo names sp (if t ≠ "" then [t] else []) rest
    | none => []

/-- The `while segments:` loop of `_trim_script`, with explicit fuel (the
loop pops exactly one segment per remaining iteration, so
`segments.length` fuel is enough): stop when the list is empty or its
total duration is within the target, otherwise pop the last segment. -/
def trimGo (target : ℚ) : Nat → List Segment → List Segment
  | 0, segments => segments
  | fuel + 1, segments =>
    if segments = [] then segments
    else if totalDuration segments ≤ target then segments
    else trimGo target fuel segments.dropLast

/-- The segment list produced by `_trim_script`'s loop. -/
def trimSegments (target : ℚ) (segments : List Segment) : List Segment :=
  trimGo target segments.length segments

/-- Method `_trim_script`: pop segments from the tail until the total estimated
duration fits the target, then rebuild the `Script` (re-running
`Script.__post_init__`, which fails when every segment was removed). -/
def trimScript (script : Script) (target_duration : Int) : Except String Script :=
  mkScript script.meta script.hosts (trimSegments (target_duration : ℚ) script.segments)

/-- Method `_adjust_timing`: within the 5% tolerance band
(`abs(current - target) <= target * 0.05`) return the script unchanged;
above the target trim from the tail; below the target return the script
as-is. -/
def adjustTiming (script : Script) (target_duration : Int) : Except String Script :=
  if |totalDuration script.segments - (target_duration : ℚ)| ≤
      (target_duration : ℚ) * (5 / 100) then .ok script
  else if totalDuration script.segments > (target_duration : ℚ) then
    trimScript script target_duration
  else .ok script

/-! ## `formatter.py`: serialization to and from the dict form

`ScriptFormatter.to_dict` / `from_dict` convert between `Script` and the
dictionary that is dumped to / loaded from YAML (the YAML encoding of that
dictionary is the external `ruamel.yaml` library's lossless transport and
is not modelled). The timestamp crosses the boundary as the string
produced by the standard library's `datetime.isoformat`, parsed back by
`datetime.fromisoformat`; both are modelled concretely below for naive
datetimes (no timezone), the only values this codebase produces. -/

/-- Fixed-width decimal rendering, most significant digit first, as used
by `datetime.isoformat` field formatting. -/
def renderPad : Nat → Nat → List Char
  | 0, _ => []
  | k + 1, n => Nat.digitChar (n / 10 ^ k) :: renderPad k (n % 10 ^ k)

/-- Read exactly `k` decimal digits, accumulating onto `acc`. -/
def readDigitsAux (acc : Nat) : Nat → List Char → Option (Nat × List Char)
  | 0, cs => some (acc, cs)
  | _ + 1, [] => none
  | k + 1, c :: cs =>
    if c.isDigit then readDigitsAux (acc * 10 + (c.toNat - 48)) k cs else none

/-- Read exactly `k` decimal digits as a number. -/
def readDigits (k : Nat) (cs : List Char) : Option (Nat × List Char) :=
  readDigitsAux 0 k cs

/-- Consume one expected separator character. -/
def expectChar (c : Char) : List Char → Option (List Char)
  | [] => none
  | c' :: cs => if c' = c then some cs else none

/-- The character sequence of `datetime.isoformat` for a naive datetime:
`YYYY-MM-DDTHH:MM:SS`, extended with `.ffffff` exactly when the
microsecond field is non-zero. -/
def isoChars (d : DateTime) : List Char :=
  renderPad 4 d.year ++ ('-' :: (renderPad 2 d.month ++ ('-' :: (renderPad 2 d.day ++
    ('T' :: (renderPad 2 d.hour ++ (':' :: (renderPad 2 d.minute ++ (':' :: (renderPad 2 d.second ++
    (if d.microsecond = 0 then [] else '.' :: renderPad 6 d.microsecond)))))))))))

/-- Model of `datetime.isoformat` (standard library). -/
def DateTime.isoformat (d : DateTime) : String := ⟨isoChars d⟩

/-- Parser for the naive-datetime isoformat shape, mirroring the grammar
`datetime.fromisoformat` accepts on the strings `isoformat` emits. -/
def parseIsoChars (cs : List Char) : Option DateTime :=
  match readDigits 4 cs with
  | none => none
  | some (y, cs) =>
  match expectChar '-' cs with
  | none => none
  | some cs =>
  match readDigits 2 cs with
  | none => none
  | some (mo, cs) =>
  match expectChar '-' cs with
  | none => none
  | some cs =>
  match readDigits 2 cs with
  | none => none
  | some (dy, cs) =>
  match expectChar 'T' cs with
  | none => none
  | some cs =>
  match readDigits 2 cs with
  | none => none
  | some (hh, cs) =>
  match expectChar ':' cs with
  | none => none
  | some cs =>
  match readDigits 2 cs with
  | none => none
  | some (mi, cs) =>
  match expectChar ':' cs with
  | none => none
  | some cs =>
  match readDigits 2 cs with
  | none => none
  | some (ss, cs) =>
  match cs with
  | [] => some ⟨y, mo, dy, hh, mi, ss, 0⟩
  | '.' :: cs =>
    match readDigits 6 cs with
    | none => none
    | some (us, cs) =>
      match cs with
      | [] => some ⟨y, mo, dy, hh, mi, ss, us⟩
      | _ => none
  | _ => none

/-- Model of `datetime.fromisoformat` (standard library): a raised
`ValueError` is an `.error`. -/
def DateTime.fromisoformat (s : String) : Except String DateTime :=
  match parseIsoChars s.data with
  | some d => .ok d
  | none => .error "Invalid isoformat string"

/-- The host entries of the serialized dict. -/
structure HostDict where
  name : String
  persona : String
  voice_id : String
deriving DecidableEq, Repr

/-- The segment entries of the serialized dict. -/
structure SegmentDict where
  speaker : String
  text : String
deriving DecidableEq, Repr

/-- The `meta` entry of the serialized dict. -/
structure MetaDict where
  title : String
  duration_sec : Int
  created : String
  mode : String
  source_document : Option String
deriving DecidableEq, Repr

/-- The dictionary produced by `ScriptFormatter.to_dict` — exactly the
persisted fields; derived values (word counts, estimated durations) have
no entry here, matching the code, which never writes them. -/
structure ScriptDict where
  meta : MetaDict
  hosts : List HostDict
  segments : List SegmentDict
deriving DecidableEq, Repr

/-- Method `ScriptFormatter.to_dict`. -/
def toDict (script : Script) : ScriptDict :=
  ⟨⟨script.meta.title, script.meta.duration_sec, script.meta.created.isoformat,
    script.meta.mode.value, script.meta.source_document⟩,
   script.hosts.map (fun h => ⟨h.name, h.persona, h.voice_id⟩),
   script.segments.map (fun g => ⟨g.speaker, g.text⟩)⟩

/-- Method `ScriptFormatter.from_dict`: rebuild the metadata, hosts, segments and
script through the validating constructors; any raised `ValueError`
propagates as `.error`. -/
def fromDict (data : ScriptDict) : Except String Script :=
  match DateTime.fromisoformat data.meta.created with
  | .error e => .error e
  | .ok created =>
  match PodcastMode.ofValue data.meta.mode with
  | .error e => .error e
  | .ok mode =>
  match mkScriptMetadata data.meta.title data.meta.duration_sec created mode
      data.meta.source_document with
  | .error e => .error e
  | .ok meta =>
  match data.hosts.mapM (fun h => mkHost h.name h.persona h.voice_id) with
  | .error e => .error e
  | .ok hosts =>
  match data.segments.mapM (fun g => mkSegment g.speaker g.text) with
  | .error e => .error e
  | .ok segments => mkScript meta hosts segments

/-! ## Shared concrete inputs for witnesses and counterexamples -/

/-- A concrete, valid metadata value used by concrete instances below. -/
def demoMeta : ScriptMetadata :=
  { title := "Demo Episode", duration_sec := 300,
    created := ⟨2024, 1, 1, 12, 0, 0, 0⟩, mode := .solo, source_document := none }

/-- A concrete, valid script used by concrete instances below: one host,
one three-word segment (estimated duration `6/5` seconds). -/
def demoScript : Script :=
  { meta := demoMeta, hosts := [⟨"Alex", "narrator", "en-US-Standard-A"⟩],
    segments := [⟨"Alex", "Hello there friend"⟩] }

end ResearchToPodcast

namespace ResearchToPodcast

/-! ## Helper lemmas -/

/-- Lemma: `findDanglingSpeaker` returns `none` exactly when every segment
speaker occurs among the host names. -/
theorem findDanglingSpeaker_eq_none (names : List String) (segments : List Segment) :
    findDanglingSpeaker names segments = none ↔
      ∀ seg ∈ segments, seg.speaker ∈ names := by
  induction segments with
  | nil => simp [findDanglingSpeaker]
  | cons s rest ih =>
    by_cases h : names.contains s.speaker
    · simp only [findDanglingSpeaker, if_pos h, ih, List.mem_cons]
      constructor
      · rintro hall seg (rfl | hseg)
        · simpa using h
        · exact hall seg hseg
      · intro hall seg hseg
        exact hall seg (Or.inr hseg)
    · simp only [findDanglingSpeaker, if_neg h]
      constructor
      · intro hfalse
        exact absurd hfalse (by simp)
      · intro hall
        exact absurd (by simpa using hall s (by simp)) h

/-- Lemma: `Script.__post_init__` succeeds exactly under its three checks. -/
theorem mkScript_ok_of_checks (meta : ScriptMetadata) (hosts : List Host)
    (segments : List Segment) (hh : hosts ≠ []) (hs : segments ≠ [])
    (hm : ∀ seg ∈ segments, seg.speaker ∈ hosts.map Host.name) :
    mkScript meta hosts segments = .ok ⟨meta, hosts, segments⟩ := by
  have hfind : findDanglingSpeaker (hosts.map Host.name) segments = none :=
    (findDanglingSpeaker_eq_none _ _).2 hm
  simp [mkScript, hh, hs, hfind]

/-- Inversion for `mkScript`: success forces the three checks and fixes the
result. -/
theorem mkScript_ok_iff (meta : ScriptMetadata) (hosts : List Host)
    (segments : List Segment) (s : Script) :
    mkScript meta hosts segments = .ok s ↔
      hosts ≠ [] ∧ segments ≠ [] ∧
      (∀ seg ∈ segments, seg.speaker ∈ hosts.map Host.name) ∧
      s = ⟨meta, hosts, segments⟩ := by
  constructor
  · intro h
    by_cases hh : hosts = []
    · simp [mkScript, hh] at h
    by_cases hs : segments = []
    · simp [mkScript, hh, hs] at h
    cases hfind : findDanglingSpeaker (hosts.map Host.name) segments with
    | some seg => simp [mkScript, hh, hs, hfind] at h
    | none =>
      refine ⟨hh, hs, (findDanglingSpeaker_eq_none _ _).1 hfind, ?_⟩
      simp [mkScript, hh, hs, hfind] at h
      exact h.symm
  · rintro ⟨hh, hs, hm, rfl⟩
    exact mkScript_ok_of_checks meta hosts segments hh hs hm

/-- Dropping the last element yields a prefix of the list. -/
theorem dropLast_isPrefix {α : Type _} (l : List α) : l.dropLast <+: l :=
  List.dropLast_prefix l

/-- A prefix of a list is the whole list or a prefix of its `dropLast`. -/
theorem prefix_eq_or_prefix_dropLast {α : Type _} {pre l : List α} (h : pre <+: l) :
    pre = l ∨ pre <+: l.dropLast := by
  obtain ⟨tail, rfl⟩ := h
  cases tail with
  | nil => left; simp
  | cons b tl =>
    right
    rw [List.dropLast_append_cons]
    exact List.prefix_append _ _

/-- The trim loop only removes segments from the tail. -/
theorem trimGo_isPrefix (t : ℚ) (fuel : Nat) :
    ∀ segs : List Segment, trimGo t fuel segs <+: segs := by
  induction fuel with
  | zero =>
    intro segs
    simp only [trimGo]
    exact List.prefix_refl segs
  | succ n ih =>
    intro segs
    by_cases h1 : segs = []
    · simp only [trimGo, if_pos h1]
      exact List.prefix_refl segs
    by_cases h2 : totalDuration segs ≤ t
    · simp only [trimGo, if_neg h1, if_pos h2]
      exact List.prefix_refl segs
    · simp only [trimGo, if_neg h1, if_neg h2]
      exact (ih segs.dropLast).trans (dropLast_isPrefix segs)

/-- With enough fuel, the trim loop's output fits the (non-negative)
target. -/
theorem trimGo_fits (t : ℚ) (htq : 0 ≤ t) (fuel : Nat) :
    ∀ segs : List Segment, segs.length ≤ fuel →
      totalDuration (trimGo t fuel segs) ≤ t := by
  induction fuel with
  | zero =>
    intro segs hlen
    have hnil : segs = [] := List.length_eq_zero.1 (Nat.le_zero.1 hlen)
    subst hnil
    simpa [trimGo, totalDuration] using htq
  | succ n ih =>
    intro segs hlen
    by_cases h1 : segs = []
    · subst h1
      simpa [trimGo, totalDuration] using htq
    by_cases h2 : totalDuration segs ≤ t
    · simp only [trimGo, if_neg h1, if_pos h2]
      exact h2
    · simp only [trimGo, if_neg h1, if_neg h2]
      refine ih segs.dropLast ?_
      have := List.length_dropLast segs
      omega

/-- With enough fuel, the trim loop removes every segment exactly when
every non-empty prefix of the input exceeds the target. -/
theorem trimGo_eq_nil_iff (t : ℚ) (fuel : Nat) :
    ∀ segs : List Segment, segs.length ≤ fuel →
      (trimGo t fuel segs = [] ↔
        ∀ pre, pre <+: segs → pre ≠ [] → t < totalDuration pre) := by
  induction fuel with
  | zero =>
    intro segs hlen
    have hnil : segs = [] := List.length_eq_zero.1 (Nat.le_zero.1 hlen)
    subst hnil
    simp only [trimGo]
    exact ⟨fun _ pre hpre hne => absurd (List.prefix_nil.1 hpre) hne, fun _ => by simp⟩
  | succ n ih =>
    intro segs hlen
    by_cases h1 : segs = []
    · subst h1
      simp only [trimGo, if_pos rfl]
      exact ⟨fun _ pre hpre hne => absurd (List.prefix_nil.1 hpre) hne, fun _ => by simp⟩
    by_cases h2 : totalDuration segs ≤ t
    · simp only [trimGo, if_neg h1, if_pos h2]
      constructor
      · intro h
        exact absurd h h1
      · intro hall
        exact absurd h2 (not_le.2 (hall segs (List.prefix_refl segs) h1))
    · simp only [trimGo, if_neg h1, if_neg h2]
      have hlen' : segs.dropLast.length ≤ n := by
        have := List.length_dropLast segs
        omega
      rw [ih segs.dropLast hlen']
      constructor
      · intro hall pre hpre hne
        rcases prefix_eq_or_prefix_dropLast hpre with rfl | hpre'
        · exact not_le.1 h2
        · exact hall pre hpre' hne
      · intro hall pre hpre hne
        exact hall pre (hpre.trans (dropLast_isPrefix segs)) hne

/-- With enough fuel, the trim loop removes no more than necessary: any
prefix already fitting the target is no longer than the output. -/
theorem trimGo_maximal (t : ℚ) (fuel : Nat) :
    ∀ segs : List Segment, segs.length ≤ fuel →
      ∀ pre, pre <+: segs → totalDuration pre ≤ t →
        pre.length ≤ (trimGo t fuel segs).length := by
  induction fuel with
  | zero =>
    intro segs hlen pre hpre _
    have hnil : segs = [] := List.length_eq_zero.1 (Nat.le_zero.1 hlen)
    subst hnil
    simpa [trimGo] using hpre.length_le
  | succ n ih =>
    intro segs hlen pre hpre hfit
    by_cases h1 : segs = []
    · subst h1
      simpa [trimGo] using hpre.length_le
    by_cases h2 : totalDuration segs ≤ t
    · simp only [trimGo, if_neg h1, if_pos h2]
      exact hpre.length_le
    · simp only [trimGo, if_neg h1, if_neg h2]
      rcases prefix_eq_or_prefix_dropLast hpre with rfl | hpre'
      · exact absurd hfit h2
      · refine ih segs.dropLast ?_ pre hpre' hfit
        have := List.length_dropLast segs
        omega

/-- Lemma: `trimSegments` only truncates from the tail. -/
theorem trimSegments_isPrefix (t : ℚ) (segs : List Segment) :
    trimSegments t segs <+: segs :=
  trimGo_isPrefix t segs.length segs

/-- Lemma: `trimSegments` output fits a non-negative target. -/
theorem trimSegments_fits (t : ℚ) (htq : 0 ≤ t) (segs : List Segment) :
    totalDuration (trimSegments t segs) ≤ t :=
  trimGo_fits t htq segs.length segs le_rfl

/-- Lemma: `trimSegments` empties the list exactly when every non-empty prefix
exceeds the target. -/
theorem trimSegments_eq_nil_iff (t : ℚ) (segs : List Segment) :
    trimSegments t segs = [] ↔
      ∀ pre, pre <+: segs → pre ≠ [] → t < totalDuration pre :=
  trimGo_eq_nil_iff t segs.length segs le_rfl

/-- Lemma: `trimSegments` removes no more than necessary. -/
theorem trimSegments_maximal (t : ℚ) (segs : List Segment) (pre : List Segment)
    (hpre : pre <+: segs) (hfit : totalDuration pre ≤ t) :
    pre.length ≤ (trimSegments t segs).length :=
  trimGo_maximal t segs.length segs le_rfl pre hpre hfit

/-- The ten digit characters are digits and decode back to their value. -/
theorem digitChar_spec : ∀ d : Nat, d < 10 →
    (Nat.digitChar d).isDigit = true ∧ (Nat.digitChar d).toNat - 48 = d := by
  decide

/-- Reading `k` digits off a `k`-wide rendering recovers the value. -/
theorem readDigitsAux_renderPad :
    ∀ (k acc n : Nat), n < 10 ^ k → ∀ rest : List Char,
      readDigitsAux acc k (renderPad k n ++ rest) = some (acc * 10 ^ k + n, rest) := by
  intro k
  induction k with
  | zero =>
    intro acc n hn rest
    have hn0 : n = 0 := by simpa using Nat.lt_one_iff.1 (by simpa using hn)
    subst hn0
    simp [renderPad, readDigitsAux]
  | succ k ih =>
    intro acc n hn rest
    have hd : n / 10 ^ k < 10 := by
      rw [Nat.div_lt_iff_lt_mul (Nat.pos_pow_of_pos k (by norm_num))]
      calc n < 10 ^ (k + 1) := hn
        _ = 10 * 10 ^ k := by rw [pow_succ]; ring
    obtain ⟨hdig, htoNat⟩ := digitChar_spec (n / 10 ^ k) hd
    simp only [renderPad, List.cons_append, readDigitsAux, hdig, if_true, htoNat,
      List.append_eq]
    rw [ih (acc * 10 + n / 10 ^ k) (n % 10 ^ k)
      (Nat.mod_lt _ (Nat.pos_pow_of_pos k (by norm_num))) rest]
    have hmod := Nat.div_add_mod n (10 ^ k)
    congr 2
    calc (acc * 10 + n / 10 ^ k) * 10 ^ k + n % 10 ^ k
        = acc * (10 ^ k * 10) + (10 ^ k * (n / 10 ^ k) + n % 10 ^ k) := by ring
      _ = acc * 10 ^ (k + 1) + n := by rw [hmod, pow_succ]

/-- Lemma: `readDigits` on a rendered field followed by a remainder. -/
theorem readDigits_renderPad (k n : Nat) (hn : n < 10 ^ k) (rest : List Char) :
    readDigits k (renderPad k n ++ rest) = some (n, rest) := by
  rw [readDigits, readDigitsAux_renderPad k 0 n hn rest, Nat.zero_mul, Nat.zero_add]

/-- Lemma: `readDigits` on a trailing rendered field. -/
theorem readDigits_renderPad_nil (k n : Nat) (hn : n < 10 ^ k) :
    readDigits k (renderPad k n) = some (n, []) := by
  conv_lhs => rw [show renderPad k n = renderPad k n ++ [] from (List.append_nil _).symm]
  exact readDigits_renderPad k n hn []

/-- Consuming the separator that is actually there. -/
theorem expectChar_cons (c : Char) (cs : List Char) : expectChar c (c :: cs) = some cs := by
  simp [expectChar]

/-- Parsing the rendered isoformat of a well-formed datetime recovers it. -/
theorem parseIsoChars_isoChars (d : DateTime) (h : d.wf = true) :
    parseIsoChars (isoChars d) = some d := by
  obtain ⟨y, mo, dy, hh, mi, ss, us⟩ := d
  simp only [DateTime.wf, Bool.and_eq_true, decide_eq_true_eq] at h
  obtain ⟨⟨⟨⟨⟨⟨⟨⟨⟨h1, h2⟩, h3⟩, h4⟩, h5⟩, h6⟩, h7⟩, h8⟩, h9⟩, h10⟩ := h
  have hy : y < 10 ^ 4 := by omega
  have hmo : mo < 10 ^ 2 := by omega
  have hdy : dy < 10 ^ 2 := by omega
  have hhh : hh < 10 ^ 2 := by omega
  have hmi : mi < 10 ^ 2 := by omega
  have hss : ss < 10 ^ 2 := by omega
  by_cases hus : us = 0
  · subst hus
    simp only [isoChars, if_pos rfl, if_true, List.append_nil, parseIsoChars,
      readDigits_renderPad 4 y hy, readDigits_renderPad 2 mo hmo,
      readDigits_renderPad 2 dy hdy, readDigits_renderPad 2 hh hhh,
      readDigits_renderPad 2 mi hmi, readDigits_renderPad_nil 2 ss hss,
      expectChar_cons]
  · have hus6 : us < 10 ^ 6 := by omega
    simp only [isoChars, if_neg hus, parseIsoChars,
      readDigits_renderPad 4 y hy, readDigits_renderPad 2 mo hmo,
      readDigits_renderPad 2 dy hdy, readDigits_renderPad 2 hh hhh,
      readDigits_renderPad 2 mi hmi, readDigits_renderPad 2 ss hss,
      readDigits_renderPad_nil 6 us hus6, expectChar_cons]

/-- The isoformat string of a well-formed datetime parses back to it. -/
theorem fromisoformat_isoformat (d : DateTime) (h : d.wf = true) :
    DateTime.fromisoformat d.isoformat = .ok d := by
  simp only [DateTime.fromisoformat, DateTime.isoformat]
  rw [parseIsoChars_isoChars d h]

/-- The enum round-trip: looking a mode's value back up yields the mode. -/
theorem ofValue_value (m : PodcastMode) : PodcastMode.ofValue m.value = .ok m := by
  cases m <;> rfl

/-- Serializing then re-validating a list of valid hosts succeeds and
returns the same hosts. -/
theorem mapM_hosts_roundtrip :
    ∀ hosts : List Host, (∀ h ∈ hosts, h.valid = true) →
      (hosts.map (fun h => (⟨h.name, h.persona, h.voice_id⟩ : HostDict))).mapM
        (fun hd => mkHost hd.name hd.persona hd.voice_id) = Except.ok hosts := by
  intro hosts
  induction hosts with
  | nil => intro _; rfl
  | cons h hs ih =>
    intro hv
    have hh := hv h (List.mem_cons_self h hs)
    simp only [Host.valid, Bool.and_eq_true, decide_eq_true_eq, ne_eq] at hh
    obtain ⟨hn, hvv⟩ := hh
    simp only [List.map_cons, List.mapM_cons]
    rw [show mkHost h.name h.persona h.voice_id = Except.ok h from by
      simp [mkHost, hn, hvv]]
    rw [ih (fun x hx => hv x (List.mem_cons_of_mem h hx))]
    rfl

/-- Serializing then re-validating a list of valid segments succeeds and
returns the same segments. -/
theorem mapM_segments_roundtrip :
    ∀ segments : List Segment, (∀ g ∈ segments, g.valid = true) →
      (segments.map (fun g => (⟨g.speaker, g.text⟩ : SegmentDict))).mapM
        (fun gd => mkSegment gd.speaker gd.text) = Except.ok segments := by
  intro segments
  induction segments with
  | nil => intro _; rfl
  | cons g gs ih =>
    intro hv
    have hg := hv g (List.mem_cons_self g gs)
    simp only [Segment.valid, Bool.and_eq_true, decide_eq_true_eq, ne_eq] at hg
    obtain ⟨hsp, htx⟩ := hg
    simp only [List.map_cons, List.mapM_cons]
    rw [show mkSegment g.speaker g.text = Except.ok g from by
      simp [mkSegment, hsp, htx]]
    rw [ih (fun x hx => hv x (List.mem_cons_of_mem g hx))]
    rfl

/-- Flushing into an accumulator appends to it. -/
theorem flushSegment_append (segs : List Segment) (cs : Option String)
    (ct : List String) : flushSegment segs cs ct = segs ++ flushSegment [] cs ct := by
  cases cs with
  | none => simp [flushSegment]
  | some sp =>
    simp only [flushSegment]
    split_ifs <;> simp

/-- The clean parsing loop appends to its accumulator. -/
theorem parseCleanAux_append (names : List String) :
    ∀ (lines : List String) (segs : List Segment) (cs : Option String)
      (ct : List String),
      parseCleanAux names segs cs ct lines = segs ++ parseCleanAux names [] cs ct lines := by
  intro lines
  induction lines with
  | nil =>
    intro segs cs ct
    simpa [parseCleanAux] using flushSegment_append segs cs ct
  | cons l rest ih =>
    intro segs cs ct
    cases hf : findSpeaker names l with
    | some p =>
      obtain ⟨sp', t⟩ := p
      simp only [parseCleanAux, hf]
      rw [ih (flushSegment segs cs ct) (some sp'), ih (flushSegment [] cs ct) (some sp'),
        flushSegment_append segs cs ct, List.append_assoc]
    | none =>
      cases cs with
      | none =>
        simp only [parseCleanAux, hf]
        exact ih segs none ct
      | some c =>
        simp only [parseCleanAux, hf]
        by_cases hc : pyTruthy c = true
        · simp only [if_pos hc]
          exact ih segs (some c) (ct ++ [l])
        · simp only [if_neg hc]
          exact ih segs (some c) ct

/-- A speaker matched by `findSpeaker` belongs to the roster. -/
theorem findSpeaker_mem : ∀ {names : List String} {line sp : String} {t : String},
    findSpeaker names line = some (sp, t) → sp ∈ names := by
  intro names
  induction names with
  | nil =>
    intro line sp t h
    simp [findSpeaker] at h
  | cons n ns ih =>
    intro line sp t h
    simp only [findSpeaker] at h
    by_cases hp : pyStartsWith line (n ++ ":") = true
    · simp only [if_pos hp, Option.some.injEq, Prod.mk.injEq] at h
      obtain ⟨rfl, -⟩ := h
      exact List.mem_cons_self n ns
    · rw [if_neg hp] at h
      exact List.mem_cons_of_mem n (ih h)

/-- A roster without the empty name only matches truthy speakers. -/
theorem pyTruthy_of_mem {names : List String} {sp : String} (hn : "" ∉ names)
    (hsp : sp ∈ names) : pyTruthy sp = true := by
  simp only [pyTruthy, ne_eq, decide_eq_true_eq]
  rintro rfl
  exact hn hsp

/-- On an open segment, the clean parsing loop is the claim-level
chunking. -/
theorem parseCleanAux_open (names : List String) (hn : "" ∉ names) :
    ∀ (lines : List String) (sp : String) (pieces : List String), sp ∈ names →
      parseCleanAux names [] (some sp) pieces lines = specChunksGo names sp pieces lines := by
  intro lines
  induction lines with
  | nil =>
    intro sp pieces _
    simp [parseCleanAux, specChunksGo, flushSegment]
  | cons l rest ih =>
    intro sp pieces hsp
    cases hf : findSpeaker names l with
    | some p =>
      obtain ⟨sp', t⟩ := p
      have hsp' : sp' ∈ names := findSpeaker_mem hf
      simp only [parseCleanAux, specChunksGo, hf]
      rw [parseCleanAux_append names rest (flushSegment [] (some sp) pieces) (some sp'),
        ih sp' (if t ≠ "" then [t] else []) hsp']
      simp [flushSegment]
    | none =>
      have hts : pyTruthy sp = true := pyTruthy_of_mem hn hsp
      simp only [parseCleanAux, specChunksGo, hf, hts, if_true]
      exact ih sp (pieces ++ [l]) hsp

/-- The implementation loop equals the clean loop on the stripped
non-blank lines. -/
theorem parseMultiAux_eq_clean (names : List String) :
    ∀ (lines : List String) (segs : List Segment) (cs : Option String)
      (ct : List String),
      parseMultiAux names segs cs ct lines
        = parseCleanAux names segs cs ct ((lines.map pyStrip).filter pyTruthy) := by
  intro lines
  induction lines with
  | nil =>
    intro segs cs ct
    rfl
  | cons l rest ih =>
    intro segs cs ct
    by_cases hb : pyStrip l = ""
    · have hft : pyTruthy (pyStrip l) = false := by simp [pyTruthy, hb]
      simp only [parseMultiAux, if_pos hb, List.map_cons, List.filter_cons, hft,
        Bool.false_eq_true, if_false]
      exact ih segs cs ct
    · have hft : pyTruthy (pyStrip l) = true := by simp [pyTruthy, hb]
      simp only [parseMultiAux, if_neg hb, List.map_cons, List.filter_cons, hft, if_true]
      cases hf : findSpeaker names (pyStrip l) with
      | some p =>
        obtain ⟨sp, t⟩ := p
        simp only [hf, parseCleanAux]
        exact ih (flushSegment segs cs ct) (some sp) _
      | none =>
        cases cs with
        | none =>
          simp only [hf, parseCleanAux]
          exact ih segs none ct
        | some c =>
          simp only [hf, parseCleanAux]
          by_cases hc : pyTruthy c = true
          · simp only [if_pos hc]
            exact ih segs (some c) (ct ++ [pyStrip l])
          · simp only [if_neg hc]
            exact ih segs (some c) ct

/-- The three-word demo segment list has total duration `6/5` seconds. -/
theorem demoScript_duration : totalDuration demoScript.segments = 6 / 5 := by
  have h : (Segment.mk "Alex" "Hello there friend").word_count = 3 := rfl
  simp [demoScript, totalDuration, Segment.estimated_duration_seconds, h]
  norm_num

/-- The demo script is far below a 300-second target, so the timing-fit
step returns it unchanged. -/
theorem demoScript_fits : adjustTiming demoScript 300 = .ok demoScript := by
  simp only [adjustTiming, demoScript_duration]
  norm_num

end ResearchToPodcast

namespace ResearchToPodcast

/-! ## Claim theorems -/

/-- C10: for every name and persona, constructing a `Host` whose voice id
is empty or whitespace-only fails with a validation error, and likewise a
name that is empty or only whitespace is rejected. -/
theorem host_rejects_blank_name_or_voice (name persona voice_id : String) :
    (pyStrip name = "" → mkHost name persona voice_id = .error "Host name cannot be empty") ∧
    (pyStrip voice_id = "" → ∃ e, mkHost name persona voice_id = .error e) := by
  constructor
  · intro h
    simp [mkHost, h]
  · intro h
    by_cases hn : pyStrip name = ""
    · exact ⟨"Host name cannot be empty", by simp [mkHost, hn]⟩
    · exact ⟨"Voice ID cannot be empty", by simp [mkHost, hn, h]⟩

/-- Witness for C10: the whitespace-only name `" "` is rejected, and the
whitespace-only voice id `" "` is rejected. -/
theorem host_rejects_blank_name_or_voice_witness :
    mkHost " " "p" "en-US-Standard-A" = .error "Host name cannot be empty" ∧
    ∃ e, mkHost "Alex" "p" " " = .error e :=
  ⟨(host_rejects_blank_name_or_voice " " "p" "en-US-Standard-A").1 (by decide),
   (host_rejects_blank_name_or_voice "Alex" "p" " ").2 (by decide)⟩

/-- C1 counterexample: `Script.__post_init__` does not check host-name
uniqueness, so constructing a script whose hosts list contains two
distinct `Host` entries sharing the name `"Ada"` succeeds rather than
failing validation. -/
theorem duplicate_host_names_accepted :
    (⟨"Ada", "expert", "v1"⟩ : Host) ≠ ⟨"Ada", "curious", "v2"⟩ ∧
    (Host.name ⟨"Ada", "expert", "v1"⟩ = Host.name ⟨"Ada", "curious", "v2"⟩) ∧
    mkScript demoMeta [⟨"Ada", "expert", "v1"⟩, ⟨"Ada", "curious", "v2"⟩]
      [⟨"Ada", "Hello there"⟩]
      = .ok ⟨demoMeta, [⟨"Ada", "expert", "v1"⟩, ⟨"Ada", "curious", "v2"⟩],
             [⟨"Ada", "Hello there"⟩]⟩ :=
  ⟨by decide, rfl, rfl⟩

/-- C1 (amended): `Script` construction enforces only that the hosts list
is non-empty, the segment list is non-empty, and every segment speaker
matches some host name; it does not enforce speaker-name uniqueness, so a
hosts list with two distinct (individually valid) entries sharing a name
is accepted whenever those checks pass. -/
theorem script_construction_ignores_duplicate_host_names
    (meta : ScriptMetadata) (hosts : List Host) (segments : List Segment)
    (_hhv : ∀ h ∈ hosts, h.valid = true) (_hsv : ∀ g ∈ segments, g.valid = true)
    (hh : hosts ≠ []) (hs : segments ≠ [])
    (hm : ∀ seg ∈ segments, seg.speaker ∈ hosts.map Host.name) :
    mkScript meta hosts segments = .ok ⟨meta, hosts, segments⟩ :=
  mkScript_ok_of_checks meta hosts segments hh hs hm

/-- Witness for C1's amended theorem: a script with two distinct hosts
named `"Ada"` is constructed successfully. -/
theorem script_construction_ignores_duplicate_host_names_witness :
    mkScript demoMeta [⟨"Ada", "expert", "vA"⟩, ⟨"Ada", "curious", "vB"⟩]
      [⟨"Ada", "Welcome back everyone"⟩]
      = .ok ⟨demoMeta, [⟨"Ada", "expert", "vA"⟩, ⟨"Ada", "curious", "vB"⟩],
             [⟨"Ada", "Welcome back everyone"⟩]⟩ :=
  script_construction_ignores_duplicate_host_names demoMeta
    [⟨"Ada", "expert", "vA"⟩, ⟨"Ada", "curious", "vB"⟩]
    [⟨"Ada", "Welcome back everyone"⟩]
    (by decide) (by decide) (by decide) (by decide) (by decide)

/-- C6: a script whose segment list contains a segment whose speaker name
equals no host name fails construction with a validation error. -/
theorem dangling_segment_speaker_rejected
    (meta : ScriptMetadata) (hosts : List Host) (segments : List Segment)
    (h : ∃ seg ∈ segments, seg.speaker ∉ hosts.map Host.name) :
    ∃ e, mkScript meta hosts segments = .error e := by
  obtain ⟨seg, hseg, hnot⟩ := h
  cases hres : mkScript meta hosts segments with
  | error e => exact ⟨e, rfl⟩
  | ok s =>
    obtain ⟨-, -, hm, -⟩ := (mkScript_ok_iff meta hosts segments s).1 hres
    exact absurd (hm seg hseg) hnot

/-- Witness for C6: a script with sole host `"Alex"` and a segment spoken
by `"Ben"` fails validation. -/
theorem dangling_segment_speaker_rejected_witness :
    ∃ e, mkScript demoMeta [⟨"Alex", "narrator", "vA"⟩] [⟨"Ben", "Hi there"⟩]
      = .error e :=
  dangling_segment_speaker_rejected demoMeta [⟨"Alex", "narrator", "vA"⟩]
    [⟨"Ben", "Hi there"⟩] ⟨⟨"Ben", "Hi there"⟩, by decide, by decide⟩

/-- C9 counterexample: at `target_duration_seconds = 3` the code computes
`int(3 * 150 / 60) = 7`, while `round(3 * 150 / 60) = round(7.5) = 8`, so
the embedded target word count is not the rounded value. -/
theorem target_words_not_rounded_at_three :
    targetWords 3 = 7 ∧ pyRound ((3 : ℚ) * 150 / 60) = 8 ∧
    (targetWords 3 : ℤ) ≠ pyRound ((3 : ℚ) * 150 / 60) := by
  have hq : ((3 : ℚ) * 150 / 60) = 15 / 2 := by norm_num
  have hfl : ⌊(15 / 2 : ℚ)⌋ = 7 := by
    rw [Int.floor_eq_iff]
    norm_num
  have hround : pyRound ((3 : ℚ) * 150 / 60) = 8 := by
    rw [hq, pyRound, hfl]
    norm_num
  exact ⟨rfl, hround, by rw [hround]; decide⟩

/-- C9 (amended): for every positive target duration, the target word
count embedded in the body-generation request is the truncation
`⌊target * 150 / 60⌋` (Python `int()`), not the value rounded to the
nearest integer. -/
theorem target_words_is_floor (t : Nat) (h : 0 < t) :
    (targetWords t : ℤ) = ⌊(t : ℚ) * 150 / 60⌋ := by
  have hq : ((t : ℚ) * 150) / 60 = ((t * 150 : ℕ) : ℚ) / ((60 : ℕ) : ℚ) := by
    push_cast
    ring
  rw [hq, ← Int.natCast_floor_eq_floor (by positivity), Nat.floor_div_eq_div]
  rfl

/-- Witness for C9's amended theorem: at the default 300-second target the
embedded word count is `⌊300 * 150 / 60⌋ = 750`. -/
theorem target_words_is_floor_witness :
    (targetWords 300 : ℤ) = ⌊(300 : ℚ) * 150 / 60⌋ ∧ targetWords 300 = 750 :=
  ⟨target_words_is_floor 300 (by decide), rfl⟩

/-- C2: behaviour of the timing-fit step for every script and positive
target. Within the 5% tolerance band the script is returned unchanged;
when the total exceeds the target (outside the band), segments are removed
from the tail only (the surviving segments are a prefix of the original,
neither reordered nor edited), stopping as soon as the total fits (no
prefix fitting the target is longer than the survivor list), with an error
when every segment would have to be removed; when the total is below the
target (outside the band) the script is returned as-is. -/
theorem timing_fit_behaviour (s : Script) (target : ℤ) (ht : 0 < target) :
    (|totalDuration s.segments - (target : ℚ)| ≤ (target : ℚ) * (5 / 100) →
      adjustTiming s target = .ok s) ∧
    ((target : ℚ) * (5 / 100) < |totalDuration s.segments - (target : ℚ)| →
      totalDuration s.segments > (target : ℚ) →
      ((∀ pre, pre <+: s.segments → pre ≠ [] → (target : ℚ) < totalDuration pre) →
        ∃ e, adjustTiming s target = .error e) ∧
      (∀ s', adjustTiming s target = .ok s' →
        s'.meta = s.meta ∧ s'.hosts = s.hosts ∧ s'.segments <+: s.segments ∧
        s'.segments ≠ [] ∧ totalDuration s'.segments ≤ (target : ℚ) ∧
        ∀ pre, pre <+: s.segments → totalDuration pre ≤ (target : ℚ) →
          pre.length ≤ s'.segments.length)) ∧
    ((target : ℚ) * (5 / 100) < |totalDuration s.segments - (target : ℚ)| →
      totalDuration s.segments < (target : ℚ) →
      adjustTiming s target = .ok s) := by
  have htq : (0 : ℚ) ≤ (target : ℚ) := by exact_mod_cast ht.le
  refine ⟨?_, ?_, ?_⟩
  · intro h
    simp [adjustTiming, h]
  · intro hdrift hgt
    have hcond : ¬ (|totalDuration s.segments - (target : ℚ)| ≤
        (target : ℚ) * (5 / 100)) := not_le.2 hdrift
    have hres : adjustTiming s target = trimScript s target := by
      simp [adjustTiming, hcond, hgt]
    constructor
    · intro hall
      have hnil : trimSegments (target : ℚ) s.segments = [] :=
        (trimSegments_eq_nil_iff _ _).2 hall
      cases hmk : mkScript s.meta s.hosts [] with
      | error e =>
        exact ⟨e, by rw [hres, trimScript, hnil, hmk]⟩
      | ok s' =>
        obtain ⟨-, habs, -, -⟩ := (mkScript_ok_iff _ _ _ _).1 hmk
        exact absurd rfl habs
    · intro s' hok
      rw [hres, trimScript] at hok
      obtain ⟨-, hs2, -, rfl⟩ := (mkScript_ok_iff _ _ _ _).1 hok
      exact ⟨rfl, rfl, trimSegments_isPrefix _ _, hs2,
        trimSegments_fits _ htq _,
        fun pre hpre hfit => trimSegments_maximal _ _ pre hpre hfit⟩
  · intro hdrift hlt
    have hcond : ¬ (|totalDuration s.segments - (target : ℚ)| ≤
        (target : ℚ) * (5 / 100)) := not_le.2 hdrift
    have hngt : ¬ (totalDuration s.segments > (target : ℚ)) := not_lt.2 hlt.le
    simp [adjustTiming, hcond, hngt]

/-- Witness for C2: the demo script (total `6/5` s) against a 300-second
target falls in the too-short branch and is returned as-is. -/
theorem timing_fit_behaviour_witness :
    adjustTiming demoScript 300 = .ok demoScript := by
  have habs : |totalDuration demoScript.segments - ((300 : ℤ) : ℚ)| = 1494 / 5 := by
    rw [demoScript_duration, abs_of_nonpos (by norm_num)]
    norm_num
  exact (timing_fit_behaviour demoScript 300 (by decide)).2.2
    (by rw [habs]; norm_num)
    (by rw [demoScript_duration]; norm_num)

/-- C7: the timing-fit step is idempotent — a script it returns
successfully is returned unchanged when the step is applied to it again
with the same (positive) target. -/
theorem timing_fit_idempotent (s s' : Script) (target : ℤ) (ht : 0 < target)
    (h : adjustTiming s target = .ok s') :
    adjustTiming s' target = .ok s' := by
  have htq : (0 : ℚ) ≤ (target : ℚ) := by exact_mod_cast ht.le
  by_cases h1 : |totalDuration s.segments - (target : ℚ)| ≤ (target : ℚ) * (5 / 100)
  · have heq : s = s' := by
      have := h
      simp [adjustTiming, h1] at this
      exact this
    subst heq
    simp [adjustTiming, h1]
  by_cases h2 : totalDuration s.segments > (target : ℚ)
  · have hres : trimScript s target = .ok s' := by
      have := h
      simpa [adjustTiming, h1, h2] using this
    rw [trimScript] at hres
    obtain ⟨-, -, -, rfl⟩ := (mkScript_ok_iff _ _ _ _).1 hres
    have hfit : totalDuration (trimSegments (target : ℚ) s.segments) ≤ (target : ℚ) :=
      trimSegments_fits _ htq _
    by_cases h1' : |totalDuration (trimSegments (target : ℚ) s.segments) - (target : ℚ)| ≤
        (target : ℚ) * (5 / 100)
    · simp [adjustTiming, h1']
    · have hngt : ¬ (totalDuration (trimSegments (target : ℚ) s.segments) > (target : ℚ)) :=
        not_lt.2 hfit
      simp [adjustTiming, h1', hngt]
  · have heq : s = s' := by
      have := h
      simp [adjustTiming, h1, h2] at this
      exact this
    subst heq
    simp [adjustTiming, h1, h2]

/-- Witness for C7: re-running the timing-fit step on the already-accepted
demo script is again a no-op. -/
theorem timing_fit_idempotent_witness :
    adjustTiming demoScript 300 = .ok demoScript :=
  timing_fit_idempotent demoScript demoScript 300 (by decide) demoScript_fits

/-- C4: for every input text and roster (of non-empty names, as host
validation guarantees), multi-speaker parsing equals the claim-level
description `multiSpeakerSpec`: every line before the first recognized
speaker label is discarded, and every line that does not open a new
recognized speaker segment — a line labeled with an unknown name, a stray
unlabeled line, or any other content — is appended, space-joined, to the
currently open segment's text. -/
theorem multi_speaker_parse_refines_spec (response : String) (hosts : List Host)
    (hn : "" ∉ hosts.map Host.name) :
    parseMultiSpeakerResponse response hosts
      = multiSpeakerSpec (hosts.map Host.name) response := by
  rw [parseMultiSpeakerResponse, parseMultiAux_eq_clean, multiSpeakerSpec]
  generalize ((pySplitOn response "\n").map pyStrip).filter pyTruthy = L
  induction L with
  | nil => rfl
  | cons l rest ihL =>
    cases hf : findSpeaker (hosts.map Host.name) l with
    | none =>
      simp only [parseCleanAux, hf, List.dropWhile_cons, Option.isNone_none, if_true]
      exact ihL
    | some p =>
      obtain ⟨sp, t⟩ := p
      have hsp : sp ∈ hosts.map Host.name := findSpeaker_mem hf
      simp only [parseCleanAux, hf, List.dropWhile_cons, Option.isNone_some,
        Bool.false_eq_true, if_false]
      exact parseCleanAux_open (hosts.map Host.name) hn rest sp _ hsp

/-- Witness for C4: a response with a leading stray line (discarded) and an
unknown label `mystery:` (folded into Dr. Ada's open segment). -/
theorem multi_speaker_parse_refines_spec_witness :
    parseMultiSpeakerResponse "intro noise\nDr. Ada: Hi\nmystery: folded\nBen: Yo"
        [⟨"Dr. Ada", "expert", "vA"⟩, ⟨"Ben", "curious", "vB"⟩]
      = multiSpeakerSpec ["Dr. Ada", "Ben"]
          "intro noise\nDr. Ada: Hi\nmystery: folded\nBen: Yo" :=
  multi_speaker_parse_refines_spec "intro noise\nDr. Ada: Hi\nmystery: folded\nBen: Yo"
    [⟨"Dr. Ada", "expert", "vA"⟩, ⟨"Ben", "curious", "vB"⟩] (by decide)

/-- C5: parsing the three-line example against the roster
{Dr. Ada, Ben} yields exactly the three expected segments in order. -/
theorem multi_speaker_parse_example :
    parseMultiSpeakerResponse "Dr. Ada: Welcome.\nBen: Hi Ada!\nDr. Ada: Let\x27s begin."
      [⟨"Dr. Ada", "expert", "en-US-Standard-A"⟩, ⟨"Ben", "curious", "en-US-Standard-B"⟩]
      = [⟨"Dr. Ada", "Welcome."⟩, ⟨"Ben", "Hi Ada!"⟩, ⟨"Dr. Ada", "Let\x27s begin."⟩] := by
  decide

/-- C8: solo parsing splits the response on `"\n\n"`, trims each
paragraph, and yields one segment per non-empty paragraph in order, each
attributed to the sole speaker; on `"Para one.\n\nPara two."` with speaker
`"Alex"` this gives exactly the two expected segments. -/
theorem solo_parse_behaviour :
    (∀ (response speaker_name : String),
      (parseSoloResponse response speaker_name).map Segment.text
          = ((pySplitOn response "\n\n").map pyStrip).filter pyTruthy ∧
      ∀ seg ∈ parseSoloResponse response speaker_name, seg.speaker = speaker_name) ∧
    parseSoloResponse "Para one.\n\nPara two." "Alex"
      = [⟨"Alex", "Para one."⟩, ⟨"Alex", "Para two."⟩] := by
  refine ⟨fun response speaker_name => ⟨?_, ?_⟩, by decide⟩
  · have hcomp :
        (Segment.text ∘ fun p => ({ speaker := speaker_name, text := p } : Segment)) = id :=
      rfl
    simp [parseSoloResponse, List.map_map, List.filter_filter, hcomp]
  · intro seg hseg
    simp only [parseSoloResponse, List.mem_map] at hseg
    obtain ⟨p, -, rfl⟩ := hseg
    rfl

/-- C3: for every valid script, deserializing its serialized dict yields
the same script field-for-field — title, duration, creation timestamp
(through its isoformat string), mode, optional source document, the
ordered hosts with name/persona/voice id, and the ordered segments with
speaker/text. The serialized form (`ScriptDict`) carries no derived
fields: word counts and durations are recomputed from the segments. -/
theorem serialization_round_trip (s : Script) (h : s.validB = true) :
    fromDict (toDict s) = .ok s := by
  obtain ⟨meta, hosts, segments⟩ := s
  simp only [Script.validB, Bool.and_eq_true, decide_eq_true_eq, ne_eq,
    Bool.not_eq_true', List.all_eq_true] at h
  obtain ⟨⟨⟨⟨⟨⟨⟨htitle, hdur⟩, hwf⟩, hhne⟩, hhv⟩, hsne⟩, hsv⟩, hmem⟩ := h
  have hhne' : hosts ≠ [] := by
    intro he
    rw [he] at hhne
    simp at hhne
  have hsne' : segments ≠ [] := by
    intro he
    rw [he] at hsne
    simp at hsne
  have hmem' : ∀ g ∈ segments, g.speaker ∈ hosts.map Host.name := by
    intro g hg
    simpa using hmem g hg
  have hiso := fromisoformat_isoformat meta.created hwf
  have hd2 : ¬ (meta.duration_sec ≤ 0) := not_le.2 hdur
  have hmeta : mkScriptMetadata meta.title meta.duration_sec meta.created meta.mode
      meta.source_document = .ok meta := by
    simp [mkScriptMetadata, htitle, hd2]
  have hhosts := mapM_hosts_roundtrip hosts hhv
  have hsegs := mapM_segments_roundtrip segments hsv
  have hscript := mkScript_ok_of_checks meta hosts segments hhne' hsne' hmem'
  simp only [toDict, fromDict, hiso, ofValue_value, hmeta, hhosts, hsegs]
  exact hscript

/-- Witness for C3: the demo script survives the round trip unchanged. -/
theorem serialization_round_trip_witness :
    fromDict (toDict demoScript) = .ok demoScript :=
  serialization_round_trip demoScript (by decide)

/-- Witness for C8: the first parsed segment of the two-paragraph example
is attributed to `"Alex"`. -/
theorem solo_parse_behaviour_witness :
    Segment.speaker ⟨"Alex", "Para one."⟩ = "Alex" :=
  (solo_parse_behaviour.1 "Para one.\n\nPara two." "Alex").2
    ⟨"Alex", "Para one."⟩ (by decide)

end ResearchToPodcast
